import Mathlib

/-!
# Verification of the sha1-macros digest pipeline

The repository exposes three source-level constructs (`sha1_hex`,
`sha1_base64`, `sha1_bytes`) that accept a string or byte-string literal,
compute the SHA1 digest of its bytes, and expand to a hex string, an
unpadded base64 string, or a 20-byte array.  The literal boundary
(`Input::parse`, `sha1_impl`) lives in `src/lib.rs`; the SHA1 digest, hex
and base64 encoders are delegated to external crates and are therefore
modelled here from the specification.  Bytes are modelled as `Nat`
(with explicit `% 256` / `% 2 ^ 32` where width matters).
-/

namespace Sha1Macros

/-- Left-rotation of a 32-bit word (words are `Nat` values below `2 ^ 32`). -/
def rotl (n w : Nat) : Nat :=
  (w * 2 ^ n + w / 2 ^ (32 - n)) % 2 ^ 32

/-- Big-endian 8-byte encoding of a 64-bit length. Modelled from the spec:
"a 64-bit big-endian encoding of `L * 8`". -/
def toBytesBE64 (n : Nat) : List Nat :=
  [n / 2 ^ 56 % 256, n / 2 ^ 48 % 256, n / 2 ^ 40 % 256, n / 2 ^ 32 % 256,
   n / 2 ^ 24 % 256, n / 2 ^ 16 % 256, n / 2 ^ 8 % 256, n % 256]

/-- Big-endian 4-byte encoding of a 32-bit state word. -/
def toBytesBE32 (w : Nat) : List Nat :=
  [w / 2 ^ 24 % 256, w / 2 ^ 16 % 256, w / 2 ^ 8 % 256, w % 256]

/-- Modelled from the spec (§4.1, the `sha1` crate is not under `src/`):
byte-level padding — the message, the `0x80` byte (a `1` bit then seven
`0` bits), zero bytes, and the 8-byte big-endian bit-length, filling a
multiple of 64 bytes. -/
def padMessage (M : List Nat) : List Nat :=
  M ++ 128 :: (List.replicate ((64 - (M.length + 9) % 64) % 64) 0
    ++ toBytesBE64 (8 * M.length))

/-- Split a byte list into 64-byte blocks (fuel-driven so that it is
structural and kernel-evaluable). -/
def toBlocksAux : Nat → List Nat → List (List Nat)
  | 0, _ => []
  | _, [] => []
  | n + 1, l => l.take 64 :: toBlocksAux n (l.drop 64)

/-- Split a byte list into 64-byte blocks. -/
def toBlocks (l : List Nat) : List (List Nat) :=
  toBlocksAux l.length l

/-- The sixteen initial 32-bit big-endian words of a 64-byte block. -/
def initWords (blk : List Nat) : List Nat :=
  (List.range 16).map fun i =>
    blk.getD (4 * i) 0 * 2 ^ 24 + blk.getD (4 * i + 1) 0 * 2 ^ 16 +
      blk.getD (4 * i + 2) 0 * 2 ^ 8 + blk.getD (4 * i + 3) 0

/-- Modelled from the spec (§4.2 step 1): extend the schedule by `fuel`
words, each `rotl 1` of the xor of the words 3, 8, 14 and 16 places back. -/
def extendW : Nat → List Nat → List Nat
  | 0, ws => ws
  | n + 1, ws =>
      let t := ws.length
      extendW n (ws ++ [rotl 1 (ws.getD (t - 3) 0 ^^^ ws.getD (t - 8) 0 ^^^
        ws.getD (t - 14) 0 ^^^ ws.getD (t - 16) 0)])

/-- Modelled from the spec (§4.2 step 3): the round function, partitioned
into four 20-round ranges. -/
def roundF (t b c d : Nat) : Nat :=
  if t < 20 then (b &&& c) ||| ((4294967295 ^^^ b) &&& d)
  else if t < 40 then b ^^^ c ^^^ d
  else if t < 60 then (b &&& c) ||| (b &&& d) ||| (c &&& d)
  else b ^^^ c ^^^ d

/-- Modelled from the spec (§4.2 step 3): the round constant. -/
def roundK (t : Nat) : Nat :=
  if t < 20 then 0x5A827999
  else if t < 40 then 0x6ED9EBA1
  else if t < 60 then 0x8F1BBCDC
  else 0xCA62C1D6

/-- One round of the compression loop:
`temp = rotl 5 a + f + e + k + w[t]`, then the registers shift with
`c = rotl 30 b` (all additions modulo `2 ^ 32`). -/
def roundStep : Nat × Nat × Nat × Nat × Nat → Nat × Nat →
    Nat × Nat × Nat × Nat × Nat
  | (a, b, c, d, e), (t, w) =>
      ((rotl 5 a + roundF t b c d + e + roundK t + w) % 2 ^ 32,
        a, rotl 30 b, c, d)

/-- The five 32-bit digest registers `h0..h4`. -/
structure Sha1State where
  h0 : Nat
  h1 : Nat
  h2 : Nat
  h3 : Nat
  h4 : Nat
deriving DecidableEq, Repr

/-- The fixed public initial state. -/
def initState : Sha1State :=
  ⟨0x67452301, 0xEFCDAB89, 0x98BADCFE, 0x10325476, 0xC3D2E1F0⟩

/-- Modelled from the spec (§4.2): compress one 64-byte block into the
state — expand to 80 schedule words, run the 80 rounds, add the working
variables back modulo `2 ^ 32`. -/
def compress (st : Sha1State) (blk : List Nat) : Sha1State :=
  let ws := extendW 64 (initWords blk)
  match ((List.range 80).zip ws).foldl roundStep
      (st.h0, st.h1, st.h2, st.h3, st.h4) with
  | (a, b, c, d, e) =>
      ⟨(st.h0 + a) % 2 ^ 32, (st.h1 + b) % 2 ^ 32, (st.h2 + c) % 2 ^ 32,
        (st.h3 + d) % 2 ^ 32, (st.h4 + e) % 2 ^ 32⟩

/-- Modelled from the spec (§4.3): the 20-byte digest is the big-endian
concatenation of the five final state words. -/
def finalizeDigest (st : Sha1State) : List Nat :=
  toBytesBE32 st.h0 ++ toBytesBE32 st.h1 ++ toBytesBE32 st.h2 ++
    toBytesBE32 st.h3 ++ toBytesBE32 st.h4

/-- Modelled from the spec (§2, §4.1–4.3, the `sha1` crate is not under
`src/`): the SHA1 digest of a byte sequence. -/
def sha1_digest (M : List Nat) : List Nat :=
  finalizeDigest ((toBlocks (padMessage M)).foldl compress initState)

/-! ## Reference bit-level padding (spec §4.1, stated over bits) -/

/-- The eight bits of a byte, most significant first. -/
def bitsOfByte (b : Nat) : List Nat :=
  [b / 128 % 2, b / 64 % 2, b / 32 % 2, b / 16 % 2,
   b / 8 % 2, b / 4 % 2, b / 2 % 2, b % 2]

/-- A byte list as a bit stream, most significant bit of each byte first. -/
def bitsOfBytes : List Nat → List Nat
  | [] => []
  | b :: rest => bitsOfByte b ++ bitsOfBytes rest

/-- Regroup a bit stream into bytes, eight bits at a time. -/
def bytesOfBits : List Nat → List Nat
  | b7 :: b6 :: b5 :: b4 :: b3 :: b2 :: b1 :: b0 :: rest =>
      (b7 * 128 + b6 * 64 + b5 * 32 + b4 * 16 + b3 * 8 + b2 * 4 + b1 * 2 + b0)
        :: bytesOfBits rest
  | _ => []

/-- The spec's padding contract stated literally over bits (§4.1): the
message bits, a single `1` bit, `0` bits as needed, and the 64-bit
big-endian bit-length, to a multiple of 512 bits. -/
def specPadBits (M : List Nat) : List Nat :=
  bitsOfBytes M ++ 1 :: (List.replicate ((512 - (8 * M.length + 65) % 512) % 512) 0
    ++ bitsOfBytes (toBytesBE64 (8 * M.length)))

/-- The digest computed with the spec's bit-level padding in place of the
byte-level `padMessage`. -/
def specSha1 (M : List Nat) : List Nat :=
  finalizeDigest ((toBlocks (bytesOfBits (specPadBits M))).foldl compress initState)

/-! ## Output encoders (spec §4.4; the `hex` and `base64` crates are not
under `src/`) -/

/-- The sixteen lowercase hexadecimal digits. -/
def hexChars : List Char := "0123456789abcdef".toList

/-- Modelled from the spec: the hex encoder maps each byte to two
lowercase hex characters, high nibble first. -/
def hexEncodeList : List Nat → List Char
  | [] => []
  | b :: rest => hexChars.getD (b / 16) '0' :: hexChars.getD (b % 16) '0'
      :: hexEncodeList rest

/-- Hex encoding as a string. -/
def hexEncode (bytes : List Nat) : String :=
  String.mk (hexEncodeList bytes)

/-- The standard base64 alphabet. -/
def b64Chars : List Char :=
  "ABCDEFGHIJKLMNOPQRSTUVWXYZabcdefghijklmnopqrstuvwxyz0123456789+/".toList

/-- The base64 character for a 6-bit group. -/
def b64Char (n : Nat) : Char := b64Chars.getD n 'A'

/-- Modelled from the spec: standard unpadded base64 — 3-byte groups give
four 6-bit characters; a trailing 2-byte group gives three characters with
the unused low bits zero; a trailing 1-byte group gives two; no `=` is
appended. -/
def b64EncodeList : List Nat → List Char
  | b0 :: b1 :: b2 :: rest =>
      b64Char (b0 / 4) :: b64Char (b0 % 4 * 16 + b1 / 16) ::
        b64Char (b1 % 16 * 4 + b2 / 64) :: b64Char (b2 % 64) ::
        b64EncodeList rest
  | [b0, b1] =>
      [b64Char (b0 / 4), b64Char (b0 % 4 * 16 + b1 / 16), b64Char (b1 % 16 * 4)]
  | [b0] => [b64Char (b0 / 4), b64Char (b0 % 4 * 16)]
  | [] => []

/-- Unpadded base64 encoding as a string. -/
def base64NoPadEncode (bytes : List Nat) : String :=
  String.mk (b64EncodeList bytes)

/-! ## Decoders (inverses used to state the mutual-consistency claim) -/

/-- The 4-bit value of a hex character (its index in `hexChars`). -/
def hexCharVal (c : Char) : Nat := hexChars.indexOf c

/-- Decode a hex string two characters per byte. -/
def hexDecodeList : List Char → List Nat
  | c1 :: c2 :: rest => (hexCharVal c1 * 16 + hexCharVal c2) :: hexDecodeList rest
  | _ => []

/-- The 6-bit value of a base64 character (its index in `b64Chars`). -/
def b64CharVal (c : Char) : Nat := b64Chars.indexOf c

/-- Decode an unpadded base64 string: groups of four characters give three
bytes, a trailing group of three gives two, of two gives one. -/
def b64DecodeList : List Char → List Nat
  | c0 :: c1 :: c2 :: c3 :: rest =>
      (b64CharVal c0 * 4 + b64CharVal c1 / 16) ::
        (b64CharVal c1 % 16 * 16 + b64CharVal c2 / 4) ::
        (b64CharVal c2 % 4 * 64 + b64CharVal c3) :: b64DecodeList rest
  | [c0, c1, c2] =>
      [b64CharVal c0 * 4 + b64CharVal c1 / 16,
       b64CharVal c1 % 16 * 16 + b64CharVal c2 / 4]
  | [c0, c1] => [b64CharVal c0 * 4 + b64CharVal c1 / 16]
  | _ => []

/-! ## The literal boundary (`Input`, `sha1_impl` in `src/lib.rs`) -/

/-- UTF-8 encoding of one code point. -/
def utf8Bytes (c : Nat) : List Nat :=
  if c < 128 then [c]
  else if c < 2048 then [192 + c / 64, 128 + c % 64]
  else if c < 65536 then [224 + c / 4096, 128 + c / 64 % 64, 128 + c % 64]
  else [240 + c / 262144, 128 + c / 4096 % 64, 128 + c / 64 % 64, 128 + c % 64]

/-- The bytes of a string literal's value (`LitStr::value().into_bytes()`,
UTF-8). -/
def strBytes (s : String) : List Nat :=
  (s.toList.map fun c => utf8Bytes c.toNat).flatten

/-- A macro-input token: a string literal, a byte-string literal, or
anything else (`src/lib.rs:30`-`40` peeks for `LitStr` then `LitByteStr`). -/
inductive Token where
  | litStr (s : String)
  | litByteStr (b : List Nat)
  | other
deriving DecidableEq

/-- The parsed `Input` enum of `src/lib.rs:16`-`19`. -/
inductive Input where
  | string (s : String)
  | bytes (b : List Nat)
deriving DecidableEq

/-- `Input::to_bytes` (`src/lib.rs:22`-`27`): a string becomes its UTF-8
bytes, a byte string is passed through. -/
def Input.to_bytes : Input → List Nat
  | .string s => strBytes s
  | .bytes b => b

/-- `Input::parse` (`src/lib.rs:30`-`40`): accept a string or byte-string
literal, reject anything else with the source's error message. -/
def Input.parse : Token → Except String Input
  | .litStr s => .ok (.string s)
  | .litByteStr b => .ok (.bytes b)
  | .other => .error ("expected a string or byte literal")

/-- `sha1_impl` (`src/lib.rs:93`-`102`): parse the input, hash its bytes,
and hand the digest to the output formatter `f`; a parse error is
propagated and no digest is produced. -/
def sha1_impl (tokens : Token) (f : List Nat → α) : Except String α :=
  (Input.parse tokens).map fun input => f (sha1_digest input.to_bytes)

/-- The `sha1_hex!` macro (`src/lib.rs:49`-`55`): `sha1_impl` with the hex
encoder. -/
def sha1_hex (tokens : Token) : Except String String :=
  sha1_impl tokens hexEncode

/-- The `sha1_base64!` macro (`src/lib.rs:64`-`73`): `sha1_impl` with the
unpadded standard base64 encoder. -/
def sha1_base64 (tokens : Token) : Except String String :=
  sha1_impl tokens base64NoPadEncode

/-- The `sha1_bytes!` macro (`src/lib.rs:83`-`91`): `sha1_impl` with the
byte-array passthrough. -/
def sha1_bytes (tokens : Token) : Except String (List Nat) :=
  sha1_impl tokens id

/-! ## Helper lemmas -/

theorem bytesOfBits_bitsOfBytes (M : List Nat) (h : ∀ b ∈ M, b < 256)
    (rest : List Nat) :
    bytesOfBits (bitsOfBytes M ++ rest) = M ++ bytesOfBits rest := by
  induction M with
  | nil => simp [bitsOfBytes]
  | cons b M ih =>
      have hb : b < 256 := h b (List.mem_cons_self b M)
      have hM : ∀ x ∈ M, x < 256 := fun x hx => h x (List.mem_cons_of_mem b hx)
      simp only [bitsOfBytes, bitsOfByte, List.cons_append, List.append_assoc,
        bytesOfBits, List.append_eq, List.nil_append]
      rw [ih hM]
      congr 1
      omega

theorem bytesOfBits_zeros (z : Nat) (rest : List Nat) :
    bytesOfBits (List.replicate (8 * z) 0 ++ rest)
      = List.replicate z 0 ++ bytesOfBits rest := by
  induction z with
  | zero => simp
  | succ z ih =>
      have h8 : 8 * (z + 1) = 8 + 8 * z := by ring
      rw [h8, List.replicate_add]
      simp only [List.append_assoc]
      rw [show List.replicate 8 (0 : Nat) = [0, 0, 0, 0, 0, 0, 0, 0] from rfl]
      simp only [List.cons_append, bytesOfBits, List.append_eq, List.nil_append]
      rw [ih]
      simp [List.replicate_succ]

theorem toBytesBE64_lt (n : Nat) : ∀ b ∈ toBytesBE64 n, b < 256 := by
  simp [toBytesBE64]
  omega

/-- The spec's bit-level padding, regrouped into bytes, is exactly the
byte-level padding: the `1` bit and the first seven `0` bits form the
`0x80` byte, and the zero bits fill whole zero bytes. -/
theorem specPad_eq_padMessage (M : List Nat) (h : ∀ b ∈ M, b < 256) :
    bytesOfBits (specPadBits M) = padMessage M := by
  unfold specPadBits padMessage
  rw [bytesOfBits_bitsOfBytes M h]
  congr 1
  have hz : (512 - (8 * M.length + 65) % 512) % 512
      = 8 * ((64 - (M.length + 9) % 64) % 64) + 7 := by omega
  rw [hz]
  rw [show 8 * ((64 - (M.length + 9) % 64) % 64) + 7
      = 7 + 8 * ((64 - (M.length + 9) % 64) % 64) from by ring]
  rw [List.replicate_add]
  rw [show List.replicate 7 (0 : Nat) = [0, 0, 0, 0, 0, 0, 0] from rfl]
  simp only [List.cons_append, List.append_assoc, bytesOfBits, List.append_eq,
    List.nil_append]
  rw [bytesOfBits_zeros]
  rw [← List.append_nil (bitsOfBytes (toBytesBE64 (8 * M.length)))]
  rw [bytesOfBits_bitsOfBytes (toBytesBE64 (8 * M.length)) (toBytesBE64_lt _) []]
  simp [bytesOfBits]

theorem finalizeDigest_length (st : Sha1State) : (finalizeDigest st).length = 20 := by
  simp [finalizeDigest, toBytesBE32]

theorem finalizeDigest_lt (st : Sha1State) : ∀ b ∈ finalizeDigest st, b < 256 := by
  simp [finalizeDigest, toBytesBE32]
  omega

theorem sha1_digest_lt (M : List Nat) : ∀ b ∈ sha1_digest M, b < 256 :=
  finalizeDigest_lt _

theorem hexChars_getD_mem : ∀ n, n < 16 → hexChars.getD n '0' ∈ hexChars := by decide

theorem hexCharVal_getD : ∀ n, n < 16 → hexCharVal (hexChars.getD n '0') = n := by decide

theorem b64Char_mem : ∀ n, n < 64 → b64Char n ∈ b64Chars := by decide

theorem b64CharVal_b64Char : ∀ n, n < 64 → b64CharVal (b64Char n) = n := by decide

theorem eq_not_mem_b64Chars : '=' ∉ b64Chars := by decide

theorem hexEncodeList_length (l : List Nat) : (hexEncodeList l).length = 2 * l.length := by
  induction l with
  | nil => rfl
  | cons b l ih => simp [hexEncodeList, ih]; ring

theorem hexEncodeList_mem (l : List Nat) (h : ∀ b ∈ l, b < 256) :
    ∀ c ∈ hexEncodeList l, c ∈ hexChars := by
  induction l with
  | nil => simp [hexEncodeList]
  | cons b l ih =>
      have hb : b < 256 := h b (List.mem_cons_self b l)
      intro c hc
      simp only [hexEncodeList, List.mem_cons] at hc
      rcases hc with rfl | rfl | hc
      · exact hexChars_getD_mem _ (by omega)
      · exact hexChars_getD_mem _ (by omega)
      · exact ih (fun x hx => h x (List.mem_cons_of_mem b hx)) c hc

theorem hex_roundtrip (l : List Nat) (h : ∀ b ∈ l, b < 256) :
    hexDecodeList (hexEncodeList l) = l := by
  induction l with
  | nil => rfl
  | cons b l ih =>
      have hb : b < 256 := h b (List.mem_cons_self b l)
      simp only [hexEncodeList, hexDecodeList]
      rw [hexCharVal_getD _ (by omega), hexCharVal_getD _ (by omega),
        ih (fun x hx => h x (List.mem_cons_of_mem b hx))]
      congr 1
      omega

theorem b64EncodeList_mem (l : List Nat) (h : ∀ b ∈ l, b < 256) :
    ∀ c ∈ b64EncodeList l, c ∈ b64Chars := by
  induction l using b64EncodeList.induct with
  | case1 b0 b1 b2 rest ih =>
      have h0 : b0 < 256 := h b0 (by simp)
      have h1 : b1 < 256 := h b1 (by simp)
      have h2 : b2 < 256 := h b2 (by simp)
      intro c hc
      simp only [b64EncodeList, List.mem_cons] at hc
      rcases hc with rfl | rfl | rfl | rfl | hc
      · exact b64Char_mem _ (by omega)
      · exact b64Char_mem _ (by omega)
      · exact b64Char_mem _ (by omega)
      · exact b64Char_mem _ (by omega)
      · exact ih (fun x hx => h x (by simp [hx])) c hc
  | case2 b0 b1 =>
      have h0 : b0 < 256 := h b0 (by simp)
      have h1 : b1 < 256 := h b1 (by simp)
      intro c hc
      simp only [b64EncodeList, List.mem_cons] at hc
      rcases hc with rfl | rfl | rfl | hc
      · exact b64Char_mem _ (by omega)
      · exact b64Char_mem _ (by omega)
      · exact b64Char_mem _ (by omega)
      · simp at hc
  | case3 b0 =>
      have h0 : b0 < 256 := h b0 (by simp)
      intro c hc
      simp only [b64EncodeList, List.mem_cons] at hc
      rcases hc with rfl | rfl | hc
      · exact b64Char_mem _ (by omega)
      · exact b64Char_mem _ (by omega)
      · simp at hc
  | case4 => simp [b64EncodeList]

theorem b64_roundtrip (l : List Nat) (h : ∀ b ∈ l, b < 256) :
    b64DecodeList (b64EncodeList l) = l := by
  induction l using b64EncodeList.induct with
  | case1 b0 b1 b2 rest ih =>
      have h0 : b0 < 256 := h b0 (by simp)
      have h1 : b1 < 256 := h b1 (by simp)
      have h2 : b2 < 256 := h b2 (by simp)
      simp only [b64EncodeList, b64DecodeList]
      rw [b64CharVal_b64Char _ (by omega), b64CharVal_b64Char _ (by omega),
        b64CharVal_b64Char _ (by omega), b64CharVal_b64Char _ (by omega),
        ih (fun x hx => h x (by simp [hx]))]
      refine congrArg₂ _ (by omega) (congrArg₂ _ (by omega) (congrArg₂ _ (by omega) rfl))
  | case2 b0 b1 =>
      have h0 : b0 < 256 := h b0 (by simp)
      have h1 : b1 < 256 := h b1 (by simp)
      simp only [b64EncodeList, b64DecodeList]
      rw [b64CharVal_b64Char _ (by omega), b64CharVal_b64Char _ (by omega),
        b64CharVal_b64Char _ (by omega)]
      refine congrArg₂ _ (by omega) (congrArg₂ _ (by omega) rfl)
  | case3 b0 =>
      have h0 : b0 < 256 := h b0 (by simp)
      simp only [b64EncodeList, b64DecodeList]
      rw [b64CharVal_b64Char _ (by omega), b64CharVal_b64Char _ (by omega)]
      refine congrArg₂ _ (by omega) rfl
  | case4 => rfl

set_option maxRecDepth 100000

theorem sha1_digest_length (M : List Nat) : (sha1_digest M).length = 20 :=
  finalizeDigest_length _

/-- Claim C1: for every byte sequence `M`, the digest computed by the
engine (byte-level padding, 80-round compression, big-endian
finalization — `sha1_digest`) equals the reference SHA1 algorithm stated
over bits: `M` padded with a single `1` bit, `0` bits, and the 64-bit
big-endian bit-length into 512-bit blocks, compressed by the same
80-round schedule, finalized to the 20-byte big-endian digest
(`specSha1`). -/
theorem sha1_digest_matches_bitlevel_reference (M : List Nat)
    (h : ∀ b ∈ M, b < 256) : specSha1 M = sha1_digest M := by
  unfold specSha1 sha1_digest
  rw [specPad_eq_padMessage M h]

theorem sha1_digest_matches_bitlevel_reference_witness :
    (∀ b ∈ [116, 101, 115, 116], b < 256) ∧
      specSha1 [116, 101, 115, 116] = sha1_digest [116, 101, 115, 116] :=
  ⟨by decide, sha1_digest_matches_bitlevel_reference [116, 101, 115, 116] (by decide)⟩

/-- Claim C2: the digest computation is deterministic — two invocations
of the engine on equal messages produce byte-identical digests, and each
of the three encoders (hex, unpadded base64, byte-array passthrough)
produces identical output on identical digests. -/
theorem sha1_pipeline_deterministic (M₁ M₂ : List Nat) (h : M₁ = M₂) :
    sha1_digest M₁ = sha1_digest M₂ ∧
    hexEncode (sha1_digest M₁) = hexEncode (sha1_digest M₂) ∧
    base64NoPadEncode (sha1_digest M₁) = base64NoPadEncode (sha1_digest M₂) ∧
    sha1_bytes (Token.litByteStr M₁) = sha1_bytes (Token.litByteStr M₂) := by
  subst h
  exact ⟨rfl, rfl, rfl, rfl⟩

theorem sha1_pipeline_deterministic_witness :
    ([] : List Nat) = [] ∧
      (sha1_digest [] = sha1_digest [] ∧
       hexEncode (sha1_digest []) = hexEncode (sha1_digest []) ∧
       base64NoPadEncode (sha1_digest []) = base64NoPadEncode (sha1_digest []) ∧
       sha1_bytes (Token.litByteStr []) = sha1_bytes (Token.litByteStr [])) :=
  ⟨rfl, sha1_pipeline_deterministic [] [] rfl⟩

/-- Claim C3: the digest of the empty byte sequence is the known SHA1
empty-string digest, its hex encoding is
`da39a3ee5e6b4b0d3255bfef95601890afd80709`, and the empty sequence is
valid input: the byte-array macro returns the digest with no error. -/
theorem sha1_digest_empty :
    sha1_digest [] = [0xda, 0x39, 0xa3, 0xee, 0x5e, 0x6b, 0x4b, 0x0d, 0x32, 0x55,
      0xbf, 0xef, 0x95, 0x60, 0x18, 0x90, 0xaf, 0xd8, 0x07, 0x09] ∧
    hexEncode (sha1_digest []) = ("da39a3ee5e6b4b0d3255bfef95601890afd80709") ∧
    sha1_bytes (Token.litByteStr []) = Except.ok (sha1_digest []) :=
  ⟨by decide, rfl, rfl⟩

/-- Claim C4: for the input `b"this is a test"` the digest equals the
bytes of hex `fa26be19de6bff93f70bc2308434e4a440bbad02`, and the hex
macro returns exactly that string. -/
theorem sha1_test_vector :
    sha1_digest (strBytes ("this is a test")) = [0xfa, 0x26, 0xbe, 0x19, 0xde,
      0x6b, 0xff, 0x93, 0xf7, 0x0b, 0xc2, 0x30, 0x84, 0x34, 0xe4, 0xa4, 0x40,
      0xbb, 0xad, 0x02] ∧
    sha1_hex (Token.litStr ("this is a test"))
      = Except.ok ("fa26be19de6bff93f70bc2308434e4a440bbad02") :=
  ⟨by decide, rfl⟩

/-- Claim C5: for the input `b"this is a test"` the unpadded base64
macro returns exactly the string `+ia+Gd5r/5P3C8IwhDTkpEC7rQI`. -/
theorem sha1_base64_test_vector :
    sha1_base64 (Token.litStr ("this is a test"))
      = Except.ok ("+ia+Gd5r/5P3C8IwhDTkpEC7rQI") := rfl

/-- Claim C6: an input token that is neither a string literal nor a
byte-string literal is rejected with the descriptive error
`expected a string or byte literal` (identifying the two accepted
forms), and every macro propagates that error with no digest output. -/
theorem parse_rejects_non_literal :
    Input.parse Token.other = Except.error ("expected a string or byte literal") ∧
    sha1_hex Token.other = Except.error ("expected a string or byte literal") ∧
    sha1_base64 Token.other = Except.error ("expected a string or byte literal") ∧
    sha1_bytes Token.other = Except.error ("expected a string or byte literal") :=
  ⟨rfl, rfl, rfl, rfl⟩

/-- Claim C7: for every byte sequence `M`, `sha1_digest M` has length
exactly 20, and the byte-array macro returns those 20 bytes unchanged. -/
theorem sha1_digest_length_and_passthrough (M : List Nat) :
    (sha1_digest M).length = 20 ∧
    sha1_bytes (Token.litByteStr M) = Except.ok (sha1_digest M) :=
  ⟨sha1_digest_length M, rfl⟩

/-- Claim C8: for every byte sequence `M`, the hex encoding of
`sha1_digest M` is exactly 40 characters, each drawn from the lowercase
hexadecimal alphabet `0-9 a-f` (so it matches the stated pattern). -/
theorem sha1_hex_shape (M : List Nat) :
    (hexEncode (sha1_digest M)).length = 40 ∧
    ∀ c ∈ (hexEncode (sha1_digest M)).toList, c ∈ hexChars := by
  constructor
  · show (hexEncodeList (sha1_digest M)).length = 40
    rw [hexEncodeList_length, sha1_digest_length]
  · exact hexEncodeList_mem _ (sha1_digest_lt M)

/-- Claim C9: for every byte sequence `M`, the unpadded base64 encoding
of `sha1_digest M` is exactly 27 characters drawn from the standard
base64 alphabet, contains no `=` padding character, and its final
character encodes a 6-bit group whose unused low two bits are zero. -/
theorem sha1_base64_shape (M : List Nat) :
    (base64NoPadEncode (sha1_digest M)).length = 27 ∧
    (∀ c ∈ (base64NoPadEncode (sha1_digest M)).toList, c ∈ b64Chars) ∧
    '=' ∉ (base64NoPadEncode (sha1_digest M)).toList ∧
    ∃ n, n < 64 ∧ n % 4 = 0 ∧
      (base64NoPadEncode (sha1_digest M)).toList.getLast? = some (b64Char n) := by
  refine ⟨rfl, b64EncodeList_mem _ (sha1_digest_lt M), ?_, ?_⟩
  · intro hc
    exact eq_not_mem_b64Chars (b64EncodeList_mem _ (sha1_digest_lt M) _ hc)
  · exact ⟨((toBlocks (padMessage M)).foldl compress initState).h4 % 256 % 16 * 4,
      by omega, by omega, rfl⟩

/-- Claim C10: the three encoders are mutually consistent on every
input token: decoding the hex macro's output yields exactly the
byte-array macro's output, and decoding the base64 macro's output yields
the same bytes; rejected tokens yield the same error on all three. -/
theorem encoders_mutually_consistent (t : Token) :
    (sha1_hex t).map (fun s => hexDecodeList s.toList) = sha1_bytes t ∧
    (sha1_base64 t).map (fun s => b64DecodeList s.toList) = sha1_bytes t := by
  cases t with
  | litStr s =>
      constructor
      · show Except.ok (hexDecodeList (hexEncodeList (sha1_digest (strBytes s))))
          = sha1_bytes (Token.litStr s)
        rw [hex_roundtrip _ (sha1_digest_lt _)]
        rfl
      · show Except.ok (b64DecodeList (b64EncodeList (sha1_digest (strBytes s))))
          = sha1_bytes (Token.litStr s)
        rw [b64_roundtrip _ (sha1_digest_lt _)]
        rfl
  | litByteStr b =>
      constructor
      · show Except.ok (hexDecodeList (hexEncodeList (sha1_digest b)))
          = sha1_bytes (Token.litByteStr b)
        rw [hex_roundtrip _ (sha1_digest_lt _)]
        rfl
      · show Except.ok (b64DecodeList (b64EncodeList (sha1_digest b)))
          = sha1_bytes (Token.litByteStr b)
        rw [b64_roundtrip _ (sha1_digest_lt _)]
        rfl
  | other => exact ⟨rfl, rfl⟩

end Sha1Macros
